import Mathlib

/-!
Verification of the grid state engine of `src/frontend/src/components/Spreadsheet.tsx`
(an interactive spreadsheet component).

The relevant parts of the component are shallowly embedded below:
pure helper functions of the source become Lean functions over `Nat`/`Int`/`Rat`
and `String`; the React component state (grid, history, selection) becomes an
explicit state record, and each event-handler becomes a pure state transformer.
JavaScript numbers are modelled as exact rationals (`Rat`); IEEE-754 rounding,
`NaN` and the infinities are outside the model except where the source tests
for `Infinity` explicitly, which is modelled with the `JSNum` type below.

React closure semantics matter for the history component and are embedded
explicitly: a callback created during a render captures the state values of
that render, so a handler that calls `setGridData(next)` followed by
`saveToHistory()` runs `saveToHistory` against the state from before the
mutation.  Where the source mutates a row array in place (so the captured
binding observes the change), the embedding applies the mutation before the
snapshot; each transformer documents which case it is in.
-/

namespace Spreadsheet

/-! ### Coordinate codec -/

/-- Character class test for `A`–`Z` (the source uses `[A-Z]` regexes and
`charCodeAt` arithmetic on this range). -/
def isUpperAZ (c : Char) : Bool := 'A' ≤ c ∧ c ≤ 'Z'

/-- Character class test for ASCII digits `0`–`9` (`\d` in the source's regexes). -/
def isDigitChar (c : Char) : Bool := '0' ≤ c ∧ c ≤ '9'

/-- Letter list of `getColumnLetter` (Spreadsheet.tsx lines 1867–1874), most
significant letter first.  The source builds the string by prepending
`String.fromCharCode(65 + index % 26)` and continuing with
`index = Math.floor(index / 26) - 1` while `index ≥ 0`; the recursion below
produces the same character sequence. -/
def getColumnLetterAux (fuel i : Nat) : List Char :=
  match fuel with
  | 0 => []
  | fuel + 1 =>
    let c := Char.ofNat (65 + i % 26)
    if i < 26 then [c]
    else getColumnLetterAux fuel (i / 26 - 1) ++ [c]

/-- Source `getColumnLetter` (lines 1867–1874): zero-based column index to
bijective base-26 letters, `0 = A`, `25 = Z`, `26 = AA`.  The fuel
`index + 1` always suffices because the remaining index shrinks on every
step; the recursion is structural on the fuel so that it computes inside
proofs. -/
def getColumnLetter (index : Nat) : String :=
  ⟨getColumnLetterAux (index + 1) index⟩

/-- Fold step of `columnLetterToIndex` (lines 505–511):
`result = result * 26 + (letter.charCodeAt(i) - 65 + 1)`. -/
def letterStep (result : Nat) (c : Char) : Nat :=
  result * 26 + (c.toNat - 65 + 1)

/-- Source `columnLetterToIndex` (lines 505–511): accumulates `letterStep`
over the characters and returns `result - 1`. -/
def columnLetterToIndex (letter : String) : Nat :=
  (letter.data.foldl letterStep 0) - 1

/-! ### Decimal digit strings

The source turns row numbers into strings with template literals
(`` `${rowNumber}` ``) and reads them back with `parseInt(..., 10)`.  The two
helpers below are the corresponding exact encodings for natural numbers. -/

/-- Fuelled worker of `natDigits`; the fuel is structural so the encoding
computes inside proofs. -/
def natDigitsAux (fuel n : Nat) : List Char :=
  match fuel with
  | 0 => []
  | fuel + 1 =>
    let d := Char.ofNat (48 + n % 10)
    if n < 10 then [d]
    else natDigitsAux fuel (n / 10) ++ [d]

/-- Decimal digit characters of `n`, most significant first (the rendering of
a non-negative integer by JavaScript string interpolation).  The fuel `n + 1`
always suffices because the remaining value shrinks on every step. -/
def natDigits (n : Nat) : List Char :=
  natDigitsAux (n + 1) n

/-- Value of one decimal digit character. -/
def digitVal (c : Char) : Nat := c.toNat - 48

/-- Decimal value of a digit list (the behaviour of `parseInt(s, 10)` on a
string of digits). -/
def parseDigits (cs : List Char) : Nat :=
  cs.foldl (fun acc c => acc * 10 + digitVal c) 0

/-! ### JavaScript string primitives

The JavaScript string operations the engine uses, implemented over the
character list of the Lean string (the core `String` versions are defined
through iterators and byte positions, which do not reduce inside proofs). -/

/-- JavaScript `toUpperCase` (ASCII letters; the engine only distinguishes
ASCII characters). -/
def jsToUpper (s : String) : String := ⟨s.data.map Char.toUpper⟩

/-- JavaScript `toLowerCase` (ASCII letters). -/
def jsToLower (s : String) : String := ⟨s.data.map Char.toLower⟩

/-- JavaScript `trim`: strip leading and trailing whitespace. -/
def jsTrim (s : String) : String :=
  ⟨((s.data.dropWhile Char.isWhitespace).reverse.dropWhile Char.isWhitespace).reverse⟩

/-- Accumulating worker of `splitOnChar`. -/
def splitOnCharAux (sep : Char) : List Char → List Char → List String
  | [], acc => [⟨acc.reverse⟩]
  | c :: rest, acc =>
    if c = sep then (⟨acc.reverse⟩ : String) :: splitOnCharAux sep rest []
    else splitOnCharAux sep rest (c :: acc)

/-- JavaScript `split` with a single-character separator: `"".split(sep)` is
`[""]`, and separators at the ends produce empty fields. -/
def splitOnChar (sep : Char) (cs : List Char) : List String :=
  splitOnCharAux sep cs []

/-- Lexicographic strict comparison of character lists: JavaScript `<` on
strings. -/
def lexLtChars : List Char → List Char → Bool
  | [], [] => false
  | [], _ :: _ => true
  | _ :: _, [] => false
  | a :: as, b :: bs => if a < b then true else if b < a then false else lexLtChars as bs

/-- JavaScript `<` on strings. -/
def strLt (s t : String) : Bool := lexLtChars s.data t.data

/-! ### Computable rational arithmetic

Mathlib's `Rat` field operations are `@[irreducible]`, so a concrete run of
the embedded engine could not be evaluated inside a proof through them.  The
wrappers below implement the same operations through the reducible
`mkRat` / `Rat.divInt` constructors; the bridge lemmas in the theorem section
identify each wrapper with the corresponding field operation, so proofs can
still use ordinary `Rat` algebra.  `ratDiv x 0 = 0` where JavaScript produces
an infinity or `NaN`; no claim depends on division by zero. -/

/-- Computable rational addition. -/
def ratAdd (a b : Rat) : Rat := mkRat (a.num * b.den + b.num * a.den) (a.den * b.den)

/-- Computable rational subtraction. -/
def ratSub (a b : Rat) : Rat := mkRat (a.num * b.den - b.num * a.den) (a.den * b.den)

/-- Computable rational multiplication. -/
def ratMul (a b : Rat) : Rat := mkRat (a.num * b.num) (a.den * b.den)

/-- Computable rational division. -/
def ratDiv (a b : Rat) : Rat := Rat.divInt (a.num * b.den) (a.den * b.num)

/-- Computable rational negation. -/
def ratNeg (a : Rat) : Rat := Rat.neg a

/-- Computable `Math.max` on two finite numbers. -/
def ratMax (a b : Rat) : Rat := if a < b then b else a

/-- Computable `Math.min` on two finite numbers. -/
def ratMin (a b : Rat) : Rat := if b < a then b else a

/-- Computable absolute value. -/
def ratAbs (a : Rat) : Rat := if a < 0 then ratNeg a else a

/-! ### Cell reference parsing -/

/-- Split of a string against the source regex `^([A-Z]+)(\d+)$` (used by
`getCellValue`, lines 519–524, and `getCellsInRange`): `some (letters, rowNum)`
when the string is one or more capital letters followed by one or more digits,
`none` otherwise. -/
def parseRefRaw (s : String) : Option (String × Nat) :=
  let letters := s.data.takeWhile isUpperAZ
  let rest := s.data.dropWhile isUpperAZ
  if letters.isEmpty then none
  else if rest.isEmpty then none
  else if rest.all isDigitChar then some (⟨letters⟩, parseDigits rest)
  else none

/-! ### Data model -/

/-- Cell contents: `value: string | number` of the source's `CellData`.
JavaScript numbers are modelled as exact rationals. -/
inductive Value where
  | num (q : Rat)
  | str (s : String)
deriving DecidableEq

/-- Source `CellFormat` (all fields optional). -/
structure CellFormat where
  bold : Option Bool := none
  italic : Option Bool := none
  alignment : Option String := none
  backgroundColor : Option String := none
deriving DecidableEq

/-- Source `CellData`: displayed value, formatting, optional formula source. -/
structure CellData where
  value : Value
  format : CellFormat := {}
  formula : Option String := none
deriving DecidableEq

/-- Source `Column`: display name and stable key. -/
structure ColumnMeta where
  name : String
  key : String
deriving DecidableEq

/-- Inputs the formula engine reads: the column metadata (`data.columns`) and
the cell matrix (`gridData`). -/
structure SheetData where
  columns : List ColumnMeta
  gridData : List (List CellData)
deriving DecidableEq

/-! ### JavaScript number formatting

The source turns numbers into strings inside formula substitution
(`value.toString()`) and in the sort comparator (`String(aVal)`).  Integers
render exactly as in JavaScript; for non-integral values the model renders a
sign, the integer part, `.`, and the first 16 fractional digits with trailing
zeros removed, idealizing IEEE-754 shortest-round-trip formatting. -/

/-- Decimal rendering of an integer, as JavaScript renders integral numbers. -/
def intToString (n : Int) : String :=
  if n < 0 then "-" ++ ⟨natDigits n.natAbs⟩ else ⟨natDigits n.natAbs⟩

/-- Rendering of a JavaScript number (see section comment). -/
def jsNumToString (q : Rat) : String :=
  if q.den = 1 then intToString q.num
  else
    let sign := if q < 0 then "-" else ""
    let a := ratAbs q
    let ip := a.floor.toNat
    let fr := ((ratMul (ratSub a (ip : Rat)) ((10 ^ 16 : Nat) : Rat)).floor).toNat
    let padded := List.replicate (16 - (natDigits fr).length) '0' ++ natDigits fr
    let frDigits := (padded.reverse.dropWhile (· = '0')).reverse
    sign ++ (⟨natDigits ip⟩ : String) ++ "." ++ (⟨frDigits⟩ : String)

/-- String conversion of a cell value (`String(v)` / `v.toString()`). -/
def jsToString : Value → String
  | .num q => jsNumToString q
  | .str s => s

/-! ### Cell value resolution -/

/-- Effect of `cell.value || 0` (line 537): the falsy values reachable in the
model are the empty string and the number `0`, both of which yield the number
`0` (`NaN` is outside the model). -/
def jsOrZero : Value → Value
  | .str s => if s = "" then Value.num 0 else Value.str s
  | .num q => Value.num q

/-- Source `getCellValue` (lines 519–541): resolve an `"A1"`-style reference.
Malformed references yield `0`; row number 1 reads the column name
(`data.columns[colIndex]?.name || ''`); row numbers ≥ 2 read data row
`rowNum - 2`, with `0` for any out-of-bounds access or falsy stored value. -/
def getCellValue (sheet : SheetData) (cellRef : String) : Value :=
  match parseRefRaw cellRef with
  | none => .num 0
  | some (colLetter, rowNum) =>
    let colIndex := columnLetterToIndex colLetter
    if rowNum = 1 then
      .str (((sheet.columns.get? colIndex).map (·.name)).getD "")
    else if 2 ≤ rowNum then
      match (sheet.gridData.get? (rowNum - 2)).bind (fun r => r.get? colIndex) with
      | some cell => jsOrZero cell.value
      | none => .num 0
    else
      -- rowNum = 0: `rowIndex = -2` fails the source's bounds check
      .num 0

/-- Source `getCellsInRange` (lines 549–590): expand a single reference or an
`"A1:B3"` range into the list of resolved values, row-major.  The source
rebuilds each reference with `String.fromCharCode(65 + colIndex)`, i.e. with a
single-character column letter. -/
def getCellsInRange (sheet : SheetData) (range : String) : List Value :=
  if ¬ range.data.contains ':' then [getCellValue sheet range]
  else
    let parts := splitOnChar ':' range.data
    let startCell := parts.getD 0 ""
    let endCell := parts.getD 1 ""
    if endCell = "" then []
    else
      match parseRefRaw startCell, parseRefRaw endCell with
      | some (sl, sr), some (el, er) =>
        let startColIndex := columnLetterToIndex sl
        let endColIndex := columnLetterToIndex el
        let minCol := Nat.min startColIndex endColIndex
        let maxCol := Nat.max startColIndex endColIndex
        let minRow := Nat.min sr er
        let maxRow := Nat.max sr er
        (List.range (maxRow + 1 - minRow)).flatMap (fun i =>
          (List.range (maxCol + 1 - minCol)).map (fun j =>
            let cellRef : String := ⟨Char.ofNat (65 + (minCol + j)) :: natDigits (minRow + i)⟩
            getCellValue sheet cellRef))
      | _, _ => []

/-! ### Arithmetic expression evaluation

The source evaluates the substituted arithmetic expression with `eval`, but
only after validating it against `^[0-9+\-*/.() ]+$`; the surrounding
`try`/`catch` converts every evaluation error into `"#ERROR!"`.  The model is
a recursive-descent evaluator over exactly that character set, with JavaScript
grammar for this fragment: `+`/`-` chains over `*`/`/` chains over unary-signed
primaries (numeric literals or parenthesised expressions).  `none` models a
thrown `SyntaxError`.  Division is exact rational division (division by zero,
which yields an infinity in JavaScript, is outside the model; no claim depends
on it). -/

/-- Skip the space characters allowed through the validation whitelist. -/
def skipSpaces (cs : List Char) : List Char := cs.dropWhile (· = ' ')

/-- Numeric-literal parse: `digits`, `digits.digits`, `digits.` or `.digits`
(JavaScript decimal literals without exponents, which the whitelist cannot
produce).  Returns the value and the remaining input. -/
def parseNumberLit (cs : List Char) : Option (Rat × List Char) :=
  let intPart := cs.takeWhile isDigitChar
  let rest := cs.dropWhile isDigitChar
  match rest with
  | '.' :: rest' =>
    let fracPart := rest'.takeWhile isDigitChar
    let rest'' := rest'.dropWhile isDigitChar
    if intPart.isEmpty ∧ fracPart.isEmpty then none
    else
      some (ratAdd (parseDigits intPart : Rat)
              (ratDiv (parseDigits fracPart : Rat) ((10 ^ fracPart.length : Nat) : Rat)),
            rest'')
  | _ =>
    if intPart.isEmpty then none
    else some ((parseDigits intPart : Rat), rest)

mutual

/-- Additive level: a term followed by `+ term` / `- term` chains. -/
def parseExpr : Nat → List Char → Option (Rat × List Char)
  | 0, _ => none
  | fuel + 1, cs =>
    match parseTerm fuel cs with
    | some (v, rest) => parseExprTail fuel v rest
    | none => none

/-- Continuation of the additive level. -/
def parseExprTail : Nat → Rat → List Char → Option (Rat × List Char)
  | 0, _, _ => none
  | fuel + 1, acc, cs =>
    match skipSpaces cs with
    | '+' :: r =>
      match parseTerm fuel r with
      | some (v, rest) => parseExprTail fuel (ratAdd acc v) rest
      | none => none
    | '-' :: r =>
      match parseTerm fuel r with
      | some (v, rest) => parseExprTail fuel (ratSub acc v) rest
      | none => none
    | _ => some (acc, cs)

/-- Multiplicative level: a signed primary followed by `*` / `/` chains. -/
def parseTerm : Nat → List Char → Option (Rat × List Char)
  | 0, _ => none
  | fuel + 1, cs =>
    match parseUnary fuel cs with
    | some (v, rest) => parseTermTail fuel v rest
    | none => none

/-- Continuation of the multiplicative level. -/
def parseTermTail : Nat → Rat → List Char → Option (Rat × List Char)
  | 0, _, _ => none
  | fuel + 1, acc, cs =>
    match skipSpaces cs with
    | '*' :: r =>
      match parseUnary fuel r with
      | some (v, rest) => parseTermTail fuel (ratMul acc v) rest
      | none => none
    | '/' :: r =>
      match parseUnary fuel r with
      | some (v, rest) => parseTermTail fuel (ratDiv acc v) rest
      | none => none
    | _ => some (acc, cs)

/-- Unary level: any run of prefixed `+` / `-` signs before a primary. -/
def parseUnary : Nat → List Char → Option (Rat × List Char)
  | 0, _ => none
  | fuel + 1, cs =>
    match skipSpaces cs with
    | '+' :: r => parseUnary fuel r
    | '-' :: r =>
      match parseUnary fuel r with
      | some (v, rest) => some (ratNeg v, rest)
      | none => none
    | cs' =>
      match cs' with
      | '(' :: r =>
        match parseExpr fuel r with
        | some (v, rest) =>
          match skipSpaces rest with
          | ')' :: r' => some (v, r')
          | _ => none
        | none => none
      | _ => parseNumberLit cs'

end

/-- Evaluation of a whitelisted arithmetic expression: parse the whole input
(modulo trailing spaces) or fail. -/
def evalArith (cs : List Char) : Option Rat :=
  match parseExpr (4 * cs.length + 8) cs with
  | some (v, rest) => if (skipSpaces rest).isEmpty then some v else none
  | none => none

/-! ### Formula engine -/

/-- Character class of the source regex `[A-Z0-9+\-*/.\s]` (line 603). -/
def arithClassChar (c : Char) : Bool :=
  isUpperAZ c || isDigitChar c || c == '+' || c == '-' || c == '*' || c == '/' || c == '.' ||
    c.isWhitespace

/-- Test of `^[A-Z0-9+\-*/.\s]+$` (nonempty, all characters in the class). -/
def arithClassOk (s : String) : Bool :=
  !s.data.isEmpty && s.data.all arithClassChar

/-- Character class of the validation regex `[0-9+\-*/.() ]` (line 613). -/
def validExprChar (c : Char) : Bool :=
  isDigitChar c || c == '+' || c == '-' || c == '*' || c == '/' || c == '.' || c == '(' ||
    c == ')' || c == ' '

/-- Test of `^[0-9+\-*/.() ]+$`: the whole injection defense before `eval`. -/
def validExpr (cs : List Char) : Bool :=
  !cs.isEmpty && cs.all validExprChar

/-- Substitution step of the arithmetic branch (line 605):
`upperFormula.replace(/([A-Z]+\d+)/g, ...)`, replacing every maximal
letters-then-digits token by the referenced value when it is a number and by
`'0'` otherwise.  A letter run not followed by a digit cannot start a match at
any of its positions and is copied through. -/
def substRefsAux (sheet : SheetData) (fuel : Nat) (cs : List Char) : List Char :=
  match fuel, cs with
  | 0, _ => []
  | _ + 1, [] => []
  | fuel + 1, c :: rest =>
    if isUpperAZ c then
      let letters := (c :: rest).takeWhile isUpperAZ
      let after := rest.dropWhile isUpperAZ
      let digits := after.takeWhile isDigitChar
      if digits.isEmpty then
        letters ++ substRefsAux sheet fuel after
      else
        let replacement :=
          match getCellValue sheet ⟨letters ++ digits⟩ with
          | .num q => (jsNumToString q).data
          | .str _ => ['0']
        replacement ++ substRefsAux sheet fuel (after.drop digits.length)
    else
      c :: substRefsAux sheet fuel rest

/-- Substitution entry point; the fuel `cs.length + 1` always suffices
because every recursive call is on a strictly shorter character list. -/
def substRefs (sheet : SheetData) (cs : List Char) : List Char :=
  substRefsAux sheet (cs.length + 1) cs

/-- JavaScript slice with negative end: `s.slice(k, -1)`, the characters from
index `k` up to (excluding) the last one.  Used to strip `FN(` and the final
`)` from an aggregate call. -/
def jsSliceDropLast (s : String) (k : Nat) : String :=
  ⟨(s.data.take (s.data.length - 1)).drop k⟩

/-- Argument strings of an aggregate call: `upperFormula.slice(k, -1).split(',')`.
Like the JavaScript `split`, an empty argument text yields the one-element
list `[""]`. -/
def aggArgs (u : String) (k : Nat) : List String :=
  splitOnChar ',' (jsSliceDropLast u k).data

/-- Coercion used by the SUM reduce step: `typeof val === 'number' ? val : 0`. -/
def toNumOr0 : Value → Rat
  | .num q => q
  | .str _ => 0

/-- Numeric members of a value list, in order: the source's
`values.filter(val => typeof val === 'number')`. -/
def numerics (l : List Value) : List Rat :=
  l.filterMap (fun v => match v with | .num q => some q | .str _ => none)

/-- JavaScript number extended with the two infinities, as needed for the
`-Infinity` / `Infinity` accumulators of the MAX and MIN branches.  Cell
values themselves are finite in the model, so the opposite infinity can never
be produced by the folds below. -/
inductive JSNum where
  | negInf
  | posInf
  | fin (q : Rat)
deriving DecidableEq

/-- One step of `max = Math.max(max, ...numericValues)` over finite inputs. -/
def jsMax2 : JSNum → Rat → JSNum
  | .negInf, q => .fin q
  | .posInf, _ => .posInf
  | .fin m, q => .fin (ratMax m q)

/-- One step of `min = Math.min(min, ...numericValues)` over finite inputs. -/
def jsMin2 : JSNum → Rat → JSNum
  | .posInf, q => .fin q
  | .negInf, _ => .negInf
  | .fin m, q => .fin (ratMin m q)

/-- SUM branch body (lines 623–634): per argument, add
`values.reduce((acc, val) => acc + (typeof val === 'number' ? val : 0), 0)`. -/
def sumAggregate (sheet : SheetData) (args : List String) : Rat :=
  args.foldl
    (fun sum arg =>
      ratAdd sum ((getCellsInRange sheet (jsTrim arg)).foldl (fun acc v => ratAdd acc (toNumOr0 v)) 0))
    0

/-- AVERAGE branch body (lines 637–651): total and count of the numeric values
of every argument, then `count > 0 ? sum / count : 0`. -/
def averageAggregate (sheet : SheetData) (args : List String) : Value :=
  let p := args.foldl
    (fun (p : Rat × Nat) arg =>
      let nv := numerics (getCellsInRange sheet (jsTrim arg))
      (ratAdd p.1 (nv.foldl ratAdd 0), p.2 + nv.length))
    (0, 0)
  if 0 < p.2 then .num (ratDiv p.1 (p.2 : Rat)) else .num 0

/-- COUNT branch body (lines 654–665): number of numeric values over all
arguments. -/
def countAggregate (sheet : SheetData) (args : List String) : Nat :=
  args.foldl (fun c arg => c + (numerics (getCellsInRange sheet (jsTrim arg))).length) 0

/-- MAX branch body (lines 668–682): fold `Math.max` from `-Infinity` over the
numeric values of each nonempty argument expansion, then
`max === -Infinity ? 0 : max`. -/
def maxAggregate (sheet : SheetData) (args : List String) : Value :=
  let m := args.foldl
    (fun acc arg =>
      let nv := numerics (getCellsInRange sheet (jsTrim arg))
      if 0 < nv.length then nv.foldl jsMax2 acc else acc)
    JSNum.negInf
  match m with
  | .negInf => .num 0
  | .fin q => .num q
  | .posInf => .num 0 -- unreachable: finite cell values never produce `Infinity`

/-- MIN branch body (lines 685–699): dual of the MAX branch, from `Infinity`. -/
def minAggregate (sheet : SheetData) (args : List String) : Value :=
  let m := args.foldl
    (fun acc arg =>
      let nv := numerics (getCellsInRange sheet (jsTrim arg))
      if 0 < nv.length then nv.foldl jsMin2 acc else acc)
    JSNum.posInf
  match m with
  | .posInf => .num 0
  | .fin q => .num q
  | .negInf => .num 0 -- unreachable: finite cell values never produce `-Infinity`

/-- JavaScript `String.prototype.startsWith`, on the character lists. -/
def strStartsWith (s p : String) : Bool :=
  p.data.isPrefixOf s.data

/-- Source `evaluateFormula` (lines 598–710), instrumented: the first
component is the returned value, the second records the substituted expression
string handed to `eval` when (and only when) the `eval` call actually runs.
The source's outer `try`/`catch` and the inner `catch` around `eval` both
return `'#ERROR!'`; in the model the only fallible step is `evalArith`, whose
`none` result models the caught exception.  `eval(expression) || 0` maps the
falsy results `0` and `NaN` to `0`; on exact rationals that only concerns `0`,
which is left unchanged by the mapping. -/
def evaluateFormulaCore (sheet : SheetData) (formula : String) :
    Value × Option (List Char) :=
  let upperFormula := jsTrim (jsToUpper formula)
  if '(' ∉ upperFormula.data ∧ arithClassOk upperFormula then
    let expression := substRefs sheet upperFormula.data
    if validExpr expression then
      match evalArith expression with
      | some r => (.num r, some expression)
      | none => (.str "#ERROR!", some expression)
    else
      (.str "#ERROR!", none)
  else if strStartsWith upperFormula "SUM(" then
    (.num (sumAggregate sheet (aggArgs upperFormula 4)), none)
  else if strStartsWith upperFormula "AVERAGE(" then
    (averageAggregate sheet (aggArgs upperFormula 8), none)
  else if strStartsWith upperFormula "COUNT(" then
    (.num ((countAggregate sheet (aggArgs upperFormula 6) : Nat) : Rat), none)
  else if strStartsWith upperFormula "MAX(" then
    (maxAggregate sheet (aggArgs upperFormula 4), none)
  else if strStartsWith upperFormula "MIN(" then
    (minAggregate sheet (aggArgs upperFormula 4), none)
  else if (parseRefRaw upperFormula).isSome then
    (getCellValue sheet upperFormula, none)
  else
    (.str "#ERROR!", none)

/-- Value returned to the caller of `evaluateFormula`. -/
def evaluateFormula (sheet : SheetData) (formula : String) : Value :=
  (evaluateFormulaCore sheet formula).1

/-! ### Sort comparator

The comparator of `handleSort` (lines 1711–1727) and of the `sortedData` memo
(lines 414–432): numeric difference when both values are of number type,
otherwise `-1`/`1`/`0` from comparing `String(v).toLowerCase()`
lexicographically.  The returned JavaScript number is modelled as a `Rat`;
only its sign is consumed by `Array.prototype.sort`. -/

/-- Source comparator for the given direction (`asc = true` for `'asc'`). -/
def sortCompare (asc : Bool) (a b : Value) : Rat :=
  match a, b with
  | .num x, .num y => if asc then ratSub x y else ratSub y x
  | a, b =>
    let aStr := jsToLower (jsToString a)
    let bStr := jsToLower (jsToString b)
    if asc then
      if strLt aStr bStr then -1 else if strLt bStr aStr then 1 else 0
    else
      if strLt bStr aStr then -1 else if strLt aStr bStr then 1 else 0

/-- Ordering from the sign of a comparator result. -/
def ordOfRatSign (r : Rat) : Ordering :=
  if r < 0 then .lt else if 0 < r then .gt else .eq

/-- Three-way comparison of rationals. -/
def cmpRat (x y : Rat) : Ordering :=
  if x < y then .lt else if y < x then .gt else .eq

/-- Three-way lexicographic comparison of strings. -/
def cmpStr (x y : String) : Ordering :=
  if strLt x y then .lt else if strLt y x then .gt else .eq

/-- Specification-side test of "parses as numeric" for a cell value, following
the claim's words: numbers parse as themselves, and a string parses as numeric
when JavaScript `Number(s)` would produce a (finite) number — a trimmed
optionally-signed decimal literal, with the empty string parsing as `0`. -/
def parsesAsNumeric (v : Value) : Option Rat :=
  match v with
  | .num q => some q
  | .str s =>
    let t := (jsTrim s).data
    match t with
    | [] => some 0
    | '+' :: r => match parseNumberLit r with | some (v, []) => some v | _ => none
    | '-' :: r => match parseNumberLit r with | some (v, []) => some (-v) | _ => none
    | r => match parseNumberLit r with | some (v, []) => some v | _ => none

/-- Specification-side comparator, following the claim's words: compare
numerically when both operands parse as numeric, otherwise case-insensitively
and lexicographically on the string representations; the descending direction
is the reverse. -/
def specSortCompare (asc : Bool) (a b : Value) : Ordering :=
  let base :=
    match parsesAsNumeric a, parsesAsNumeric b with
    | some x, some y => cmpRat x y
    | _, _ => cmpStr (jsToLower (jsToString a)) (jsToLower (jsToString b))
  if asc then base else base.swap

/-- Amended specification-side comparator: compare numerically exactly when
both operands are of number type, otherwise case-insensitively and
lexicographically on the string representations. -/
def typedSortCompare (asc : Bool) (a b : Value) : Ordering :=
  let base :=
    match a, b with
    | .num x, .num y => cmpRat x y
    | a, b => cmpStr (jsToLower (jsToString a)) (jsToLower (jsToString b))
  if asc then base else base.swap

/-! ### Viewport window -/

/-- Fixed row height in pixels (line 274). -/
def ROW_HEIGHT : Nat := 40

/-- Buffer rows rendered outside the viewport (line 277). -/
def BUFFER_SIZE : Nat := 10

/-- Result of the virtual-scrolling memo. -/
structure ViewportWindow (α : Type) where
  startIndex : Nat
  endIndex : Nat
  visibleRows : List α
deriving DecidableEq

/-- Virtual-scrolling computation (lines 383–400).  On non-negative inputs,
`Math.ceil(containerHeight / ROW_HEIGHT)` is `(containerHeight + 39) / 40` and
`Math.max(0, Math.floor(scrollTop / ROW_HEIGHT) - BUFFER_SIZE)` is the
truncated subtraction `scrollTop / 40 - 10` on `Nat`.  `slice(start, end)` is
`drop start` then `take (end - start)`, which like the JavaScript `slice`
yields `[]` when `end ≤ start` and clamps to the list length. -/
def viewportCalc {α : Type} (filteredData : List α) (scrollTop containerHeight : Nat) :
    ViewportWindow α :=
  let totalRows := filteredData.length
  let visibleRowCount :=
    Nat.min totalRows ((containerHeight + (ROW_HEIGHT - 1)) / ROW_HEIGHT + BUFFER_SIZE * 2)
  let startIndex := scrollTop / ROW_HEIGHT - BUFFER_SIZE
  let endIndex := Nat.min totalRows (startIndex + visibleRowCount)
  { startIndex := startIndex
    endIndex := endIndex
    visibleRows := (filteredData.drop startIndex).take (endIndex - startIndex) }

/-- Height of the leading spacer row (`offsetY = startIndex * ROW_HEIGHT`,
lines 396 and 2449–2454; the row is omitted, i.e. has height `0`, when
`startIndex = 0`). -/
def leadingSpacer {α : Type} (w : ViewportWindow α) : Nat :=
  w.startIndex * ROW_HEIGHT

/-- Height of the trailing spacer row
(`(filteredData.length - endIndex) * ROW_HEIGHT`, lines 2584–2589; omitted,
i.e. height `0`, when `endIndex = filteredData.length`). -/
def trailingSpacer {α : Type} (w : ViewportWindow α) (totalRows : Nat) : Nat :=
  (totalRows - w.endIndex) * ROW_HEIGHT

/-! ### Grid mutations and history

The component state relevant to the history claims, with each event handler
as a pure state transformer.  A `useCallback` closure captures the state
values of the render it was created in, so `saveToHistory` invoked inside a
handler snapshots the `gridData` binding of that render — not the argument of
a preceding `setGridData` call.  Handlers that mutate a row array in place
(`updated = [...gridData]; updated[row][col] = ...`) do change the object the
captured binding points at, and for them the snapshot observes the mutation.
Each transformer notes which situation applies. -/

/-- Source `HistoryState`: deep, independent copies of the grid and columns.
Deep copying (`JSON.parse(JSON.stringify(...))`) is the identity on the pure
values of the model. -/
structure HistoryState where
  gridData : List (List CellData)
  columns : List ColumnMeta
deriving DecidableEq

/-- Component state for the grid/history claims. -/
structure CompState where
  gridData : List (List CellData)
  columns : List ColumnMeta
  history : List HistoryState
  historyIndex : Int
  sortColumn : Option Nat
  sortDirection : Bool
deriving DecidableEq

/-- Initial component state: no history, `historyIndex = -1` (lines 174–177),
no sort. -/
def mkCompState (columns : List ColumnMeta) (gridData : List (List CellData)) :
    CompState :=
  { gridData := gridData, columns := columns, history := [], historyIndex := -1,
    sortColumn := none, sortDirection := true }

/-- History-seeding effect (lines 1792–1801): when the history is empty, store
a snapshot of the current state at index 0. -/
def seedHistory (s : CompState) : CompState :=
  if s.history.isEmpty then
    { s with history := [⟨s.gridData, s.columns⟩], historyIndex := 0 }
  else s

/-- Source `saveToHistory` (lines 443–451), parameterised by the `gridData`
value its closure observes at call time: truncate after the cursor, append a
snapshot, move the cursor to the new last entry. -/
def saveToHistorySem (closureGrid : List (List CellData)) (s : CompState) : CompState :=
  let newHistory := s.history.take (s.historyIndex + 1).toNat ++ [⟨closureGrid, s.columns⟩]
  { s with history := newHistory, historyIndex := (newHistory.length : Int) - 1 }

/-- Update of one cell through `get?`/`set`; out-of-bounds coordinates leave
the grid unchanged (the source only reaches in-bounds coordinates). -/
def updateCell (g : List (List CellData)) (row col : Nat) (f : CellData → CellData) :
    List (List CellData) :=
  match g.get? row with
  | some r =>
    match r.get? col with
    | some c => g.set row (r.set col (f c))
    | none => g
  | none => g

/-- Stable insertion step: `a` goes before the first element `b` with
`le a b`, i.e. before the elements it ties with that originally came later. -/
def insertSorted {α : Type} (le : α → α → Bool) (a : α) : List α → List α
  | [] => [a]
  | b :: t => if le a b then a :: b :: t else b :: insertSorted le a t

/-- Stable sort by a boolean `≤` test (insertion sort).  This models the
observable contract of `Array.prototype.sort` with a consistent comparator:
the result is sorted and equal elements keep their relative order. -/
def stableSort {α : Type} (le : α → α → Bool) : List α → List α
  | [] => []
  | a :: t => insertSorted le a (stableSort le t)

/-- Row sort of `handleSort` (lines 1711–1727): a stable sort of the rows by
the comparator on column `colIndex` (`Array.prototype.sort` is stable). -/
def sortGridData (g : List (List CellData)) (colIndex : Nat) (asc : Bool) :
    List (List CellData) :=
  stableSort (fun a b =>
    sortCompare asc (((a.get? colIndex).map (·.value)).getD (.num 0))
      (((b.get? colIndex).map (·.value)).getD (.num 0)) ≤ 0) g

/-- Source `handleSort` (lines 1705–1731).  The sorted array is a fresh copy
(`[...gridData].sort`), so the closure of the subsequent `saveToHistory()`
still observes the pre-sort `gridData`: the pushed snapshot is the grid from
before the sort. -/
def handleSortSem (colIndex : Nat) (s : CompState) : CompState :=
  let newDirection := ¬ (s.sortColumn = some colIndex ∧ s.sortDirection)
  let sorted := sortGridData s.gridData colIndex newDirection
  let s' := saveToHistorySem s.gridData s
  { s' with gridData := sorted, sortColumn := some colIndex,
            sortDirection := newDirection }

/-- Committed cell edit: `handleInputChange` (lines 1242–1289, plain-text data
cell) followed by `handleInputBlur` (lines 1291–1295).  `handleInputChange`
writes `updated[row][col] = {...cell, value, formula: undefined}` into the
shared row array, mutating it in place, and the blur fires in a later event
after a re-render — so the snapshot taken by `saveToHistory` observes the
post-edit grid. -/
def editCommitSem (row col : Nat) (v : Value) (s : CompState) : CompState :=
  let g' := updateCell s.gridData row col (fun c => { c with value := v, formula := none })
  saveToHistorySem g' { s with gridData := g' }

/-- Column-name restoration performed by `undo`/`redo` (lines 462–469 and
483–490) through `onHeaderChange`: every column whose snapshot name differs
from the current name is renamed to the snapshot name. -/
def restoreColumns (cur prev : List ColumnMeta) : List ColumnMeta :=
  cur.mapIdx (fun i c =>
    match prev.get? i with
    | some p => if p.name ≠ c.name then { c with name := p.name } else c
    | none => c)

/-- Source `undo` (lines 457–472): when the cursor is positive, replace the
grid by the snapshot before the cursor and move the cursor back.  The
out-of-bounds branch is unreachable under the history-length invariant. -/
def undoSem (s : CompState) : CompState :=
  if 0 < s.historyIndex then
    match s.history.get? (s.historyIndex - 1).toNat with
    | some prev =>
      { s with gridData := prev.gridData,
               columns := restoreColumns s.columns prev.columns,
               historyIndex := s.historyIndex - 1 }
    | none => s
  else s

/-- Source `redo` (lines 478–493): when the cursor is before the last entry,
replace the grid by the next snapshot and advance the cursor. -/
def redoSem (s : CompState) : CompState :=
  if s.historyIndex < (s.history.length : Int) - 1 then
    match s.history.get? (s.historyIndex + 1).toNat with
    | some next =>
      { s with gridData := next.gridData,
               columns := restoreColumns s.columns next.columns,
               historyIndex := s.historyIndex + 1 }
    | none => s
  else s

/-- Source `clearCell` (lines 1343–1348): replace the cell by
`{ value: '', format: updated[row][col].format }` — empty value, format kept,
no `formula` property. -/
def clearCellSem (g : List (List CellData)) (row col : Nat) : List (List CellData) :=
  updateCell g row col (fun c => { value := .str "", format := c.format, formula := none })

/-! ### Selection model -/

/-- Cell position as used for selection (row `-1` is the header sentinel). -/
structure CellPos where
  row : Int
  col : Int
deriving DecidableEq

/-- Source `CellRange`: anchor/focus pair, not necessarily normalised. -/
structure CellRangeSel where
  start : CellPos
  stop : CellPos
deriving DecidableEq

/-- Selection state of the component.  The source keys the selected-cell set
by the strings `` `${row},${col}` ``; that keying is injective on integer
pairs, so the model stores the pairs themselves. -/
structure SelectionState where
  selectedCell : Option CellPos
  selectedCells : Finset (Int × Int)
  selectedRange : Option CellRangeSel
deriving DecidableEq

/-- Ctrl/Cmd-click branch of `handleCellClick` (lines 729–739): toggle the
clicked key in the selected set, make the clicked cell primary, and call
`setSelectedRange(null)`. -/
def ctrlClickSem (st : SelectionState) (row col : Int) : SelectionState :=
  let key : Int × Int := (row, col)
  { selectedCell := some ⟨row, col⟩,
    selectedCells :=
      if key ∈ st.selectedCells then st.selectedCells.erase key
      else insert key st.selectedCells,
    selectedRange := none }

/-! ### Cell reference rendering -/

/-- Source `getCellReference` (lines 1876–1881): single-character column
letter from `String.fromCharCode(65 + col)` and row number `1` for the header
sentinel, `row + 2` for data rows. -/
def getCellReference (row : Int) (col : Nat) : String :=
  (⟨[Char.ofNat (65 + col)]⟩ : String) ++ intToString (if row = -1 then 1 else row + 2)

/-- Decoding of a reference to a position, as performed by `getCellValue`
(lines 519–541): regex split, `columnLetterToIndex` on the letters, and row
number `1` to the header sentinel `-1`, row number `n ≥ 2` to data row
`n - 2`. -/
def parseCellRef (s : String) : Option (Int × Nat) :=
  match parseRefRaw s with
  | none => none
  | some (letters, rowNum) =>
    some (if rowNum = 1 then (-1 : Int) else (rowNum : Int) - 2, columnLetterToIndex letters)

/-! ### Specification-side aggregate reductions (for the refinement claims) -/

/-- Expanded argument values of an aggregate call: each comma-separated
argument trimmed and expanded through `getCellsInRange`, concatenated. -/
def expandedValues (sheet : SheetData) (args : List String) : List Value :=
  args.flatMap (fun a => getCellsInRange sheet (jsTrim a))

/-- Specification-side SUM: total of the numeric values. -/
def specSum (l : List Value) : Rat := (numerics l).foldl ratAdd 0

/-- Specification-side AVERAGE: total over count of the numeric values, `0`
when there are none. -/
def specAverage (l : List Value) : Rat :=
  if (numerics l).length = 0 then 0
  else ratDiv ((numerics l).foldl ratAdd 0) ((numerics l).length : Rat)

/-- Specification-side COUNT: number of numeric values. -/
def specCount (l : List Value) : Nat := (numerics l).length

/-- Specification-side MAX: maximum of the numeric values, sentinel `0` when
there are none. -/
def specMax (l : List Value) : Rat :=
  match numerics l with
  | [] => 0
  | h :: t => t.foldl ratMax h

/-- Specification-side MIN: minimum of the numeric values, sentinel `0` when
there are none. -/
def specMin (l : List Value) : Rat :=
  match numerics l with
  | [] => 0
  | h :: t => t.foldl ratMin h

/-! ### Concrete example data -/

/-- Cell lookup in a grid. -/
def cellAt (g : List (List CellData)) (row col : Nat) : Option CellData :=
  (g.get? row).bind (fun r => r.get? col)

/-- Example sheet: one column `Product` and the data column values
`10, 20, 30` (spec §8's formula-correctness scenario). -/
def demoSheet : SheetData :=
  { columns := [⟨"Product", "product"⟩],
    gridData := [[{ value := .num 10 }], [{ value := .num 20 }], [{ value := .num 30 }]] }

/-- Example component state: a one-column grid with rows `5` and `1`. -/
def demoState : CompState :=
  mkCompState [⟨"V", "v"⟩] [[{ value := .num 5 }], [{ value := .num 1 }]]

/-- Example cell holding a formula, a format and a numeric value. -/
def demoFormulaCell : CellData :=
  { value := .num 5, format := { bold := some true }, formula := some "=A2" }

/-- Example selection state with an active transient range. -/
def demoSelection : SelectionState :=
  { selectedCell := none, selectedCells := ∅,
    selectedRange := some ⟨⟨0, 0⟩, ⟨1, 1⟩⟩ }

/-! ## Theorems

First the bridge lemmas identifying the computable rational wrappers with
Mathlib's field operations, then helper lemmas, then one theorem per claim. -/

/-- Bridge: `ratAdd` is rational addition. -/
theorem ratAdd_eq (a b : Rat) : ratAdd a b = a + b := (Rat.add_def' a b).symm

/-- Bridge: `ratSub` is rational subtraction. -/
theorem ratSub_eq (a b : Rat) : ratSub a b = a - b := (Rat.sub_def' a b).symm

/-- Bridge: `ratMul` is rational multiplication. -/
theorem ratMul_eq (a b : Rat) : ratMul a b = a * b := by
  rw [ratMul, Rat.mul_def, Rat.normalize_eq_mkRat]

/-- Bridge: `ratNeg` is rational negation. -/
theorem ratNeg_eq (a : Rat) : ratNeg a = -a := rfl

/-- Bridge: `ratDiv` is rational division. -/
theorem ratDiv_eq (a b : Rat) : ratDiv a b = a / b := by
  rw [ratDiv, Rat.divInt_eq_div]
  by_cases hb : b = 0
  · subst hb; simp
  · have hbn : (b.num : ℚ) ≠ 0 := by exact_mod_cast Rat.num_ne_zero.mpr hb
    have had : ((a.den : ℚ)) ≠ 0 := by exact_mod_cast a.den_nz
    have hbd : ((b.den : ℚ)) ≠ 0 := by exact_mod_cast b.den_nz
    conv_rhs => rw [← Rat.num_div_den a, ← Rat.num_div_den b]
    push_cast
    field_simp

/-- Bridge: `ratMax` is the maximum. -/
theorem ratMax_eq (a b : Rat) : ratMax a b = max a b := by
  rw [ratMax, max_def]
  rcases lt_trichotomy a b with h | h | h
  · rw [if_pos h, if_pos h.le]
  · subst h; simp
  · rw [if_neg (not_lt.mpr h.le), if_neg (not_le.mpr h)]

/-- Bridge: `ratMin` is the minimum. -/
theorem ratMin_eq (a b : Rat) : ratMin a b = min a b := by
  rw [ratMin, min_def]
  rcases lt_trichotomy a b with h | h | h
  · rw [if_neg (not_lt.mpr h.le), if_pos h.le]
  · subst h; simp
  · rw [if_pos h, if_neg (not_le.mpr h)]

/-! ### Coordinate codec lemmas (C7) -/

/-- Character codes of the letters `A`–`Z` survive the `Char` round trip. -/
theorem toNat_ofNat_65 (m : Nat) (h : m < 26) : (Char.ofNat (65 + m)).toNat = 65 + m := by
  interval_cases m <;> rfl

/-- Value of the letter encoding under the decoding fold, with enough fuel. -/
theorem foldl_letterStep_aux :
    ∀ (fuel i : Nat), i < fuel →
      List.foldl letterStep 0 (getColumnLetterAux fuel i) = i + 1 := by
  intro fuel
  induction fuel with
  | zero => intro i h; omega
  | succ fuel ih =>
    intro i h
    rw [getColumnLetterAux]
    by_cases h26 : i < 26
    · rw [if_pos h26]
      simp only [List.foldl, letterStep, toNat_ofNat_65 (i % 26) (Nat.mod_lt _ (by omega))]
      have : i % 26 = i := Nat.mod_eq_of_lt h26
      omega
    · rw [if_neg h26, List.foldl_append]
      have hlt : i / 26 - 1 < fuel := by
        have : i / 26 < i := Nat.div_lt_self (by omega) (by omega)
        omega
      rw [ih _ hlt]
      simp only [List.foldl, letterStep, toNat_ofNat_65 (i % 26) (Nat.mod_lt _ (by omega))]
      have h1 : 26 * (i / 26) + i % 26 = i := Nat.div_add_mod i 26
      have h2 : 1 ≤ i / 26 := Nat.one_le_div_iff (by omega) |>.mpr (by omega)
      omega

/-- C7: for every `i` in `[0, 1000)`,
`columnLetterToIndex (getColumnLetter i) = i` — the bijective base-26 column
codec round-trips on this range (the proof does not use the upper bound). -/
theorem C7_codec_roundtrip (i : Nat) (_h : i < 1000) :
    columnLetterToIndex (getColumnLetter i) = i := by
  have hfold := foldl_letterStep_aux (i + 1) i (by omega)
  simp [columnLetterToIndex, getColumnLetter, hfold]

/-- Witness for C7 at the concrete index `702` (letters `"AAA"`). -/
theorem C7_codec_roundtrip_witness :
    702 < 1000 ∧ columnLetterToIndex (getColumnLetter 702) = 702 :=
  ⟨by norm_num, C7_codec_roundtrip 702 (by norm_num)⟩

/-! ### Viewport window (C2) -/

/-- C2 counterexample: with no rows, scroll offset `4000` and container height
`600`, the source computes `startIndex = 90 > 0 = endIndex`, and the spacer
identity fails (`3600 ≠ 0`): the claim is false for unrestricted scroll
offsets. -/
theorem C2_viewport_counterexample :
    (viewportCalc ([] : List (List CellData)) 4000 600).startIndex = 90 ∧
    (viewportCalc ([] : List (List CellData)) 4000 600).endIndex = 0 ∧
    ¬ ((viewportCalc ([] : List (List CellData)) 4000 600).startIndex ≤
        (viewportCalc ([] : List (List CellData)) 4000 600).endIndex) ∧
    leadingSpacer (viewportCalc ([] : List (List CellData)) 4000 600) +
        (viewportCalc ([] : List (List CellData)) 4000 600).visibleRows.length * ROW_HEIGHT +
        trailingSpacer (viewportCalc ([] : List (List CellData)) 4000 600)
          ([] : List (List CellData)).length ≠
      ([] : List (List CellData)).length * ROW_HEIGHT := by
  decide

/-- C2 (amended): for all `totalRows ≥ 0`, `scrollOffset ≥ 0`,
`containerHeight ≥ 0`, **provided the scroll offset does not point more than
`bufferRows` rows past the end of the content**
(`⌊scrollOffset / rowHeight⌋ ≤ totalRows + bufferRows`), the window satisfies
`0 ≤ startIndex ≤ endIndex ≤ totalRows` and
`leadingSpacer + slice.length·rowHeight + trailingSpacer = totalRows·rowHeight`. -/
theorem C2_viewport_invariants_amended {α : Type} (filteredData : List α)
    (scrollTop containerHeight : Nat)
    (hscroll : scrollTop / ROW_HEIGHT ≤ filteredData.length + BUFFER_SIZE) :
    (viewportCalc filteredData scrollTop containerHeight).startIndex ≤
      (viewportCalc filteredData scrollTop containerHeight).endIndex ∧
    (viewportCalc filteredData scrollTop containerHeight).endIndex ≤ filteredData.length ∧
    leadingSpacer (viewportCalc filteredData scrollTop containerHeight) +
        (viewportCalc filteredData scrollTop containerHeight).visibleRows.length * ROW_HEIGHT +
        trailingSpacer (viewportCalc filteredData scrollTop containerHeight)
          filteredData.length =
      filteredData.length * ROW_HEIGHT := by
  simp only [viewportCalc, leadingSpacer, trailingSpacer, List.length_take, List.length_drop,
    ROW_HEIGHT, BUFFER_SIZE, Nat.min_def] at *
  split_ifs <;> omega

/-- Witness for the amended C2 on a three-row grid at scroll offset `0`. -/
theorem C2_viewport_invariants_amended_witness :
    (0 : Nat) / ROW_HEIGHT ≤ (demoSheet.gridData).length + BUFFER_SIZE ∧
    ((viewportCalc demoSheet.gridData 0 600).startIndex ≤
        (viewportCalc demoSheet.gridData 0 600).endIndex ∧
      (viewportCalc demoSheet.gridData 0 600).endIndex ≤ demoSheet.gridData.length ∧
      leadingSpacer (viewportCalc demoSheet.gridData 0 600) +
          (viewportCalc demoSheet.gridData 0 600).visibleRows.length * ROW_HEIGHT +
          trailingSpacer (viewportCalc demoSheet.gridData 0 600) demoSheet.gridData.length =
        demoSheet.gridData.length * ROW_HEIGHT) :=
  ⟨by decide, C2_viewport_invariants_amended demoSheet.gridData 0 600 (by decide)⟩

/-! ### History (C3, C4) -/

/-- C3 (code bug): after the two recorded mutations "edit cell (0,0) to 7"
and "sort column 0 ascending" on the grid `[[5],[1]]`, the grid reads
`[[1],[7]]`; `undo()` then `redo()` leaves `[[7],[1]]` — the pre-sort grid,
not the pre-undo grid.  The cause: `saveToHistory`'s closure captures the
render-time `gridData`, so `handleSort` pushes the pre-sort grid as the new
snapshot, breaking the `grid = history[historyIndex]` correspondence that
undo-then-redo relies on. -/
theorem C3_undo_redo_code_bug :
    (handleSortSem 0 (editCommitSem 0 0 (.num 7) (seedHistory demoState))).gridData =
      [[{ value := .num 1 }], [{ value := .num 7 }]] ∧
    (redoSem (undoSem
        (handleSortSem 0 (editCommitSem 0 0 (.num 7) (seedHistory demoState))))).gridData =
      [[{ value := .num 7 }], [{ value := .num 1 }]] ∧
    (redoSem (undoSem
        (handleSortSem 0 (editCommitSem 0 0 (.num 7) (seedHistory demoState))))).gridData ≠
      (handleSortSem 0 (editCommitSem 0 0 (.num 7) (seedHistory demoState))).gridData := by
  decide

/-- C4 (code bug): sorting the seeded grid `[[5],[1]]` produces the grid
`[[1],[5]]`, but the newest history entry holds the **pre-sort** grid
`[[5],[1]]`: the snapshot is not of the grid produced by the mutation,
because `saveToHistory` runs against the closure's pre-mutation `gridData`. -/
theorem C4_snapshot_order_code_bug :
    (handleSortSem 0 (seedHistory demoState)).gridData =
      [[{ value := .num 1 }], [{ value := .num 5 }]] ∧
    ((handleSortSem 0 (seedHistory demoState)).history.getLast?).map (fun h => h.gridData) =
      some [[{ value := .num 5 }], [{ value := .num 1 }]] ∧
    ((handleSortSem 0 (seedHistory demoState)).history.getLast?).map (fun h => h.gridData) ≠
      some (handleSortSem 0 (seedHistory demoState)).gridData := by
  decide

/-! ### Selection model (C9) -/

/-- C9 counterexample: a Ctrl/Cmd-click toggle **does** alter `selectedRange`
when a transient range is active — the source resets it to `null` — so the
"does not alter `selectedRange`" part of the claim is false at this state. -/
theorem C9_toggle_counterexample :
    (ctrlClickSem demoSelection 2 3).selectedRange ≠ demoSelection.selectedRange ∧
    demoSelection.selectedRange ≠ none ∧
    (ctrlClickSem demoSelection 2 3).selectedCells =
      (demoSelection.selectedCells \ {(2, 3)}) ∪ ({(2, 3)} \ demoSelection.selectedCells) := by
  decide

/-- C9 (amended): a modifier-key click replaces the explicit selected-cells
set with its symmetric difference with the singleton of the clicked position,
makes that position the primary cell, and **resets `selectedRange` to null**. -/
theorem C9_toggle_amended (st : SelectionState) (row col : Int) :
    (ctrlClickSem st row col).selectedCells =
      (st.selectedCells \ {(row, col)}) ∪ ({(row, col)} \ st.selectedCells) ∧
    (ctrlClickSem st row col).selectedRange = none ∧
    (ctrlClickSem st row col).selectedCell = some ⟨row, col⟩ := by
  refine ⟨?_, rfl, rfl⟩
  show (if (row, col) ∈ st.selectedCells then st.selectedCells.erase (row, col)
        else insert (row, col) st.selectedCells) = _
  by_cases h : (row, col) ∈ st.selectedCells
  · rw [if_pos h]
    ext x
    simp only [Finset.mem_erase, Finset.mem_union, Finset.mem_sdiff, Finset.mem_singleton]
    constructor
    · intro hx
      exact Or.inl ⟨hx.2, hx.1⟩
    · rintro (⟨hxs, hxk⟩ | ⟨rfl, hxs⟩)
      · exact ⟨hxk, hxs⟩
      · exact absurd h hxs
  · rw [if_neg h]
    ext x
    simp only [Finset.mem_insert, Finset.mem_union, Finset.mem_sdiff, Finset.mem_singleton]
    constructor
    · rintro (rfl | hxs)
      · exact Or.inr ⟨rfl, h⟩
      · exact Or.inl ⟨hxs, fun hxk => h (hxk ▸ hxs)⟩
    · rintro (⟨hxs, _⟩ | ⟨rfl, _⟩)
      · exact Or.inr hxs
      · exact Or.inl rfl

/-- Witness for the amended C9, applied at the demo selection state. -/
theorem C9_toggle_amended_witness :
    (ctrlClickSem demoSelection 2 3).selectedCells =
      (demoSelection.selectedCells \ {(2, 3)}) ∪ ({(2, 3)} \ demoSelection.selectedCells) ∧
    (ctrlClickSem demoSelection 2 3).selectedRange = none ∧
    (ctrlClickSem demoSelection 2 3).selectedCell = some ⟨2, 3⟩ :=
  C9_toggle_amended demoSelection 2 3

/-! ### Clearing a cell (C10) -/

/-- C10: clearing an in-bounds data cell sets its value to the empty string
and removes the stored formula while keeping the cell's format, leaves every
other cell unchanged, and preserves the number of rows. -/
theorem C10_clearCell_frame (g : List (List CellData)) (row col : Nat)
    (r : List CellData) (c : CellData)
    (hr : g.get? row = some r) (hc : r.get? col = some c) :
    cellAt (clearCellSem g row col) row col =
      some { value := .str "", format := c.format, formula := none } ∧
    (∀ r' c' : Nat, ¬ (r' = row ∧ c' = col) →
      cellAt (clearCellSem g row col) r' c' = cellAt g r' c') ∧
    (clearCellSem g row col).length = g.length := by
  obtain ⟨hrow, -⟩ := List.get?_eq_some.mp hr
  obtain ⟨hcol, -⟩ := List.get?_eq_some.mp hc
  simp only [clearCellSem, updateCell, hr, hc]
  refine ⟨?_, ?_, by simp⟩
  · simp only [cellAt]
    rw [List.get?_set_eq_of_lt _ hrow]
    simp only [Option.some_bind]
    rw [List.get?_set_eq_of_lt _ hcol]
  · intro r' c' hne
    by_cases h1 : r' = row
    · subst h1
      have h2 : col ≠ c' := fun h => hne ⟨rfl, h.symm⟩
      simp only [cellAt]
      rw [List.get?_set_eq_of_lt _ hrow, hr]
      simp only [Option.some_bind]
      rw [List.get?_set_ne _ _ h2]
    · simp only [cellAt]
      rw [List.get?_set_ne _ _ (fun h => h1 h.symm)]

/-- Witness for C10 on a concrete one-cell grid holding a formula cell. -/
theorem C10_clearCell_frame_witness :
    cellAt (clearCellSem [[demoFormulaCell]] 0 0) 0 0 =
      some { value := .str "", format := demoFormulaCell.format, formula := none } ∧
    (∀ r' c' : Nat, ¬ (r' = 0 ∧ c' = 0) →
      cellAt (clearCellSem [[demoFormulaCell]] 0 0) r' c' =
        cellAt [[demoFormulaCell]] r' c') ∧
    (clearCellSem [[demoFormulaCell]] 0 0).length = 1 :=
  C10_clearCell_frame [[demoFormulaCell]] 0 0 _ _ rfl rfl

/-! ### Reference round-trip (C6) -/

/-- Bounded round-trip of the cell-reference codec, for every header/data row
in `{-1, ..., 50}` and every single-letter column `0 ≤ col < 26`, checked by
evaluation. -/
theorem refRoundtripBounded :
    ∀ r ∈ Finset.Icc (-1 : Int) 50, ∀ c ∈ Finset.range 26,
      parseCellRef (getCellReference r c) = some (r, c) := by
  decide

/-- C6 counterexample: at position `(row 0, col 26)` the encoder emits
`"[2"` (`String.fromCharCode(65 + 26)` is `'['`), which the decoder's
`^([A-Z]+)(\d+)$` regex rejects — the round trip fails for every column
index beyond `25`. -/
theorem C6_ref_roundtrip_counterexample :
    getCellReference 0 26 = "[2" ∧
    parseCellRef (getCellReference 0 26) = none ∧
    parseCellRef (getCellReference 0 26) ≠ some (0, 26) := by
  decide

/-- C6 (amended): for every position with `row ∈ {-1, 0, ..., 50}` **and
`col < 26`** (single-letter columns — all `getCellReference` can produce),
encoding through `getCellReference` and decoding through `getCellValue`'s
reference parsing yields the original position. -/
theorem C6_ref_roundtrip_amended (row : Int) (col : Nat)
    (h1 : -1 ≤ row) (h2 : row ≤ 50) (h3 : col < 26) :
    parseCellRef (getCellReference row col) = some (row, col) :=
  refRoundtripBounded row (Finset.mem_Icc.mpr ⟨h1, h2⟩) col (Finset.mem_range.mpr h3)

/-- Witness for the amended C6 at position `(7, 25)` (reference `"Z9"`). -/
theorem C6_ref_roundtrip_amended_witness :
    (-1 : Int) ≤ 7 ∧ (7 : Int) ≤ 50 ∧ (25 : Nat) < 26 ∧
    parseCellRef (getCellReference 7 25) = some (7, 25) :=
  ⟨by norm_num, by norm_num, by norm_num,
    C6_ref_roundtrip_amended 7 25 (by norm_num) (by norm_num) (by norm_num)⟩

/-! ### Sort comparator (C5) -/

/-- Strict string comparison is irreflexive. -/
theorem lexLtChars_irrefl : ∀ a : List Char, lexLtChars a a = false := by
  intro a
  induction a with
  | nil => rfl
  | cons x xs ih => simp [lexLtChars, ih]

/-- Strict string comparison is transitive. -/
theorem lexLtChars_trans :
    ∀ {a b c : List Char}, lexLtChars a b = true → lexLtChars b c = true →
      lexLtChars a c = true := by
  intro a
  induction a with
  | nil =>
    intro b c hab hbc
    cases b with
    | nil => simp [lexLtChars] at hab
    | cons y ys =>
      cases c with
      | nil => simp [lexLtChars] at hbc
      | cons z zs => simp [lexLtChars]
  | cons x xs ih =>
    intro b c hab hbc
    cases b with
    | nil => simp [lexLtChars] at hab
    | cons y ys =>
      cases c with
      | nil => simp [lexLtChars] at hbc
      | cons z zs =>
        simp only [lexLtChars] at hab hbc ⊢
        by_cases hxy : x < y
        · by_cases hyz : y < z
          · simp [lt_trans hxy hyz]
          · by_cases hzy : z < y
            · simp [hzy] at hbc
              exact absurd hbc hyz
            · have hyez : y = z := le_antisymm (not_lt.mp hzy) (not_lt.mp hyz)
              subst hyez
              simp [hxy]
        · by_cases hyx : y < x
          · simp [hxy, hyx] at hab
          · have hxey : x = y := le_antisymm (not_lt.mp hyx) (not_lt.mp hxy)
            subst hxey
            have hab' : lexLtChars xs ys = true := by simpa [lt_irrefl] using hab
            by_cases hyz : x < z
            · simp [hyz]
            · by_cases hzy : z < x
              · simp [hyz, hzy] at hbc
              · have hbc' : lexLtChars ys zs = true := by simpa [hyz, hzy] using hbc
                simp [hyz, hzy, ih hab' hbc']

/-- Strict string comparison is trichotomous. -/
theorem lexLtChars_trichot :
    ∀ a b : List Char, lexLtChars a b = true ∨ lexLtChars b a = true ∨ a = b := by
  intro a
  induction a with
  | nil =>
    intro b
    cases b with
    | nil => right; right; rfl
    | cons y ys => left; rfl
  | cons x xs ih =>
    intro b
    cases b with
    | nil => right; left; rfl
    | cons y ys =>
      rcases lt_trichotomy x y with hxy | hxy | hxy
      · left; simp [lexLtChars, hxy]
      · subst hxy
        rcases ih ys with h | h | h
        · left; simp [lexLtChars, lt_irrefl, h]
        · right; left; simp [lexLtChars, lt_irrefl, h]
        · right; right; rw [h]
      · right; left; simp [lexLtChars, hxy]

/-- Strict string comparison is asymmetric. -/
theorem lexLtChars_asymm {a b : List Char} (h : lexLtChars a b = true) :
    lexLtChars b a = false := by
  cases hba : lexLtChars b a
  · rfl
  · have haa := lexLtChars_trans h hba
    rw [lexLtChars_irrefl] at haa
    exact absurd haa (by simp)

/-- Asymmetry at the string level. -/
theorem strLt_asymm {a b : String} (h : strLt a b = true) : strLt b a = false :=
  lexLtChars_asymm h

/-- Sign of the comparator's `-1` result. -/
theorem ordOfRatSign_neg_one : ordOfRatSign (-1) = .lt := by norm_num [ordOfRatSign]

/-- Sign of the comparator's `1` result. -/
theorem ordOfRatSign_one : ordOfRatSign 1 = .gt := by norm_num [ordOfRatSign]

/-- Sign of the comparator's `0` result. -/
theorem ordOfRatSign_zero : ordOfRatSign 0 = .eq := by norm_num [ordOfRatSign]

/-- A string-branch comparator value is `≤ 0` exactly when the second operand
is not strictly below the first. -/
theorem strBranchLe_iff (xL yL : String) :
    ((if strLt xL yL then (-1 : Rat) else if strLt yL xL then 1 else 0) ≤ 0) ↔
      strLt yL xL = false := by
  by_cases hp : strLt xL yL
  · have hq := strLt_asymm hp
    simp [hp, hq]
  · by_cases hq : strLt yL xL
    · simp [hp, hq]
    · simp [hp, hq]

/-- Transitivity of the non-strict string order. -/
theorem strLt_trans_neg {xL yL zL : String}
    (h1 : strLt yL xL = false) (h2 : strLt zL yL = false) : strLt zL xL = false := by
  cases h : strLt zL xL
  · rfl
  · exfalso
    rcases lexLtChars_trichot xL.data yL.data with ht | ht | ht
    · have := lexLtChars_trans h ht
      rw [show lexLtChars zL.data yL.data = strLt zL yL from rfl, h2] at this
      exact absurd this (by simp)
    · rw [show lexLtChars yL.data xL.data = strLt yL xL from rfl, h1] at ht
      exact absurd ht (by simp)
    · have hxy : xL = yL := by
        cases xL; cases yL; simp_all
      subst hxy
      rw [h] at h2
      exact absurd h2 (by simp)

/-- Sign of the comparator's string branch against the three-way comparison. -/
theorem strBranch_sign (asc : Bool) (aL bL : String) :
    ordOfRatSign (if asc then (if strLt aL bL then (-1 : Rat) else if strLt bL aL then 1 else 0)
        else (if strLt bL aL then (-1 : Rat) else if strLt aL bL then 1 else 0)) =
      (if asc then (if strLt aL bL then Ordering.lt else if strLt bL aL then .gt else .eq)
        else (if strLt aL bL then Ordering.lt else if strLt bL aL then .gt else .eq).swap) := by
  cases asc
  · by_cases hp : strLt aL bL
    · have hq := strLt_asymm hp
      simp [hp, hq, ordOfRatSign_one, Ordering.swap]
    · by_cases hq : strLt bL aL
      · simp [hp, hq, ordOfRatSign_neg_one, Ordering.swap]
      · simp [hp, hq, ordOfRatSign_zero, Ordering.swap]
  · by_cases hp : strLt aL bL
    · simp [hp, ordOfRatSign_neg_one]
    · by_cases hq : strLt bL aL
      · simp [hp, hq, ordOfRatSign_one]
      · simp [hp, hq, ordOfRatSign_zero]

/-- Sign of the comparator's numeric branch against the three-way comparison. -/
theorem numBranch_sign (asc : Bool) (x y : Rat) :
    ordOfRatSign (if asc then ratSub x y else ratSub y x) =
      (if asc then cmpRat x y else (cmpRat x y).swap) := by
  cases asc
  · simp only [Bool.false_eq_true, if_false, ratSub_eq, ordOfRatSign, cmpRat, sub_neg, sub_pos]
    rcases lt_trichotomy x y with h | h | h
    · simp [h, asymm h, Ordering.swap]
    · subst h
      simp [lt_irrefl, Ordering.swap]
    · simp [h, asymm h, Ordering.swap]
  · simp only [if_true, ratSub_eq, ordOfRatSign, cmpRat, sub_neg, sub_pos]

/-- Agreement of the source comparator's sign with the type-directed
three-way comparison, in both directions. -/
theorem sortCompare_sign_typed (asc : Bool) (a b : Value) :
    ordOfRatSign (sortCompare asc a b) = typedSortCompare asc a b := by
  cases a with
  | num x =>
    cases b with
    | num y => exact numBranch_sign asc x y
    | str s =>
      simp only [sortCompare, typedSortCompare, cmpStr, jsToString]
      exact strBranch_sign asc _ _
  | str s =>
    cases b with
    | num y =>
      simp only [sortCompare, typedSortCompare, cmpStr, jsToString]
      exact strBranch_sign asc _ _
    | str t =>
      simp only [sortCompare, typedSortCompare, cmpStr, jsToString]
      exact strBranch_sign asc _ _

/-- A string-branch comparison is total. -/
theorem strBranchLe_total (aL bL : String) :
    (if strLt aL bL then (-1 : Rat) else if strLt bL aL then 1 else 0) ≤ 0 ∨
    (if strLt bL aL then (-1 : Rat) else if strLt aL bL then 1 else 0) ≤ 0 := by
  rw [strBranchLe_iff, strBranchLe_iff]
  cases h : strLt bL aL
  · left; rfl
  · right; exact strLt_asymm h

/-- C5 counterexample: the string values `"10"` and `"9"` both parse as
numeric, yet the source comparator orders `"10"` strictly before `"9"`
(string comparison) while the claim's parse-based comparator orders it
after; and the comparator is not a total order: `2 < 10 ≤ "13"` yet
`"13" < 2` (an intransitive cycle across number/string operands). -/
theorem C5_sort_comparator_counterexample :
    ordOfRatSign (sortCompare true (.str "10") (.str "9")) = .lt ∧
    specSortCompare true (.str "10") (.str "9") = .gt ∧
    sortCompare true (.num 2) (.num 10) ≤ 0 ∧
    sortCompare true (.num 10) (.str "13") ≤ 0 ∧
    ¬ sortCompare true (.num 2) (.str "13") ≤ 0 := by
  decide

/-- C5 (amended): the sort comparator compares numerically exactly when both
operands are **of numeric type**, and otherwise case-insensitively and
lexicographically on the string representations, in both directions
(`sortCompare_sign_typed` conjunct); it induces a total preorder on purely
numeric operands and on purely string operands (transitivity conjuncts), and
it is total on all pairs — but it is not transitive across mixed
numeric/string operands (see the counterexample). -/
theorem C5_sort_comparator_amended :
    (∀ (asc : Bool) (a b : Value),
        ordOfRatSign (sortCompare asc a b) = typedSortCompare asc a b) ∧
    (∀ x y z : Rat,
        sortCompare true (.num x) (.num y) ≤ 0 →
        sortCompare true (.num y) (.num z) ≤ 0 →
        sortCompare true (.num x) (.num z) ≤ 0) ∧
    (∀ x y z : String,
        sortCompare true (.str x) (.str y) ≤ 0 →
        sortCompare true (.str y) (.str z) ≤ 0 →
        sortCompare true (.str x) (.str z) ≤ 0) ∧
    (∀ a b : Value, sortCompare true a b ≤ 0 ∨ sortCompare true b a ≤ 0) := by
  refine ⟨sortCompare_sign_typed, ?_, ?_, ?_⟩
  · intro x y z hxy hyz
    simp only [sortCompare, if_true, ratSub_eq] at hxy hyz ⊢
    linarith
  · intro x y z hxy hyz
    simp only [sortCompare, if_true] at hxy hyz ⊢
    rw [strBranchLe_iff] at hxy hyz ⊢
    exact strLt_trans_neg hxy hyz
  · intro a b
    cases a with
    | num x =>
      cases b with
      | num y =>
        simp only [sortCompare, if_true, ratSub_eq]
        rcases le_total x y with h | h
        · left; linarith
        · right; linarith
      | str s =>
        simp only [sortCompare, if_true]
        exact strBranchLe_total _ _
    | str s =>
      cases b with
      | num y =>
        simp only [sortCompare, if_true]
        exact strBranchLe_total _ _
      | str t =>
        simp only [sortCompare, if_true]
        exact strBranchLe_total _ _

/-- Witness for the amended C5 at concrete operands. -/
theorem C5_sort_comparator_amended_witness :
    ordOfRatSign (sortCompare true (.num 2) (.num 3)) = typedSortCompare true (.num 2) (.num 3) ∧
    (sortCompare true (.str "a") (.str "b") ≤ 0 ∨ sortCompare true (.str "b") (.str "a") ≤ 0) :=
  ⟨C5_sort_comparator_amended.1 true (.num 2) (.num 3),
    C5_sort_comparator_amended.2.2.2 (.str "a") (.str "b")⟩

/-! ### Injection safety (C1) -/

/-- C1: a formula payload whose normalised text (uppercased, trimmed — the
engine is case-insensitive) contains a character outside `[A-Z0-9+\-*/.\s]`,
does not start with one of the five aggregate forms, and is not a single
cell reference, evaluates to the error marker `"#ERROR!"` and never reaches
the `eval` step (second component `none`); and whenever the `eval` step does
run, its input is a substituted string matching `^[0-9+\-*/.() ]+$`.  The
engine is a total function, so no exception escapes to the caller. -/
theorem C1_injection_safety :
    (∀ (sheet : SheetData) (f : String),
        (∃ c ∈ (jsTrim (jsToUpper f)).data, arithClassChar c = false) →
        strStartsWith (jsTrim (jsToUpper f)) "SUM(" = false →
        strStartsWith (jsTrim (jsToUpper f)) "AVERAGE(" = false →
        strStartsWith (jsTrim (jsToUpper f)) "COUNT(" = false →
        strStartsWith (jsTrim (jsToUpper f)) "MAX(" = false →
        strStartsWith (jsTrim (jsToUpper f)) "MIN(" = false →
        parseRefRaw (jsTrim (jsToUpper f)) = none →
        evaluateFormula sheet f = .str "#ERROR!" ∧ (evaluateFormulaCore sheet f).2 = none) ∧
    (∀ (sheet : SheetData) (f : String) (e : List Char),
        (evaluateFormulaCore sheet f).2 = some e → validExpr e = true) := by
  constructor
  · intro sheet f hbad h1 h2 h3 h4 h5 h6
    have hall : ((jsTrim (jsToUpper f)).data.all arithClassChar) = false := by
      obtain ⟨c, hc, hcf⟩ := hbad
      rw [List.all_eq_false]
      exact ⟨c, hc, by simp [hcf]⟩
    have hclass : arithClassOk (jsTrim (jsToUpper f)) = false := by
      simp [arithClassOk, hall]
    constructor
    · simp only [evaluateFormula, evaluateFormulaCore, hclass, h1, h2, h3, h4, h5, h6]
      simp
    · simp only [evaluateFormulaCore, hclass, h1, h2, h3, h4, h5, h6]
      simp
  · intro sheet f e h
    by_cases h0 : '(' ∉ (jsTrim (jsToUpper f)).data ∧ arithClassOk (jsTrim (jsToUpper f))
    · simp only [evaluateFormulaCore, if_pos h0] at h
      by_cases hv : validExpr (substRefs sheet (jsTrim (jsToUpper f)).data)
      · revert h
        cases hev : evalArith (substRefs sheet (jsTrim (jsToUpper f)).data) <;>
          simp only [hv, if_true, hev] <;> intro h <;> exact (Option.some.inj h) ▸ hv
      · simp only [hv] at h
        simp at h
    · simp only [evaluateFormulaCore, if_neg h0] at h
      split_ifs at h

/-- Witness for C1: the payload `window.alert(1)` resolves to `"#ERROR!"`
and the `eval` step never runs. -/
theorem C1_injection_safety_witness :
    evaluateFormula demoSheet "window.alert(1)" = .str "#ERROR!" ∧
    (evaluateFormulaCore demoSheet "window.alert(1)").2 = none :=
  C1_injection_safety.1 demoSheet "window.alert(1)" (by decide) (by decide) (by decide)
    (by decide) (by decide) (by decide) (by decide)


/-! ### Aggregate reductions (C8) -/


/-- Prefix decomposition of `List.isPrefixOf`. -/

theorem isPrefixOf_append : ∀ {p u : List Char}, p.isPrefixOf u = true → ∃ t, u = p ++ t := by
  intro p
  induction p with
  | nil => intro u h; exact ⟨u, rfl⟩
  | cons a as ih =>
    intro u h
    cases u with
    | nil => simp [List.isPrefixOf] at h
    | cons b bs =>
      simp only [List.isPrefixOf, Bool.and_eq_true, beq_iff_eq] at h
      obtain ⟨rfl, h2⟩ := h
      obtain ⟨t, rfl⟩ := ih h2
      exact ⟨t, rfl⟩


/-- Numeric members distribute over list append. -/

theorem numerics_append (l1 l2 : List Value) :
    numerics (l1 ++ l2) = numerics l1 ++ numerics l2 :=
  List.filterMap_append l1 l2 _


/-- Expansion of a cons of argument strings. -/

theorem expandedValues_cons (sheet : SheetData) (a : String) (args : List String) :
    expandedValues sheet (a :: args) =
      getCellsInRange sheet (jsTrim a) ++ expandedValues sheet args := by
  simp [expandedValues]


/-- The SUM branch's inner reduce adds exactly the numeric values. -/

theorem foldl_toNumOr0 (l : List Value) (a : Rat) :
    l.foldl (fun acc v => ratAdd acc (toNumOr0 v)) a = a + (numerics l).sum := by
  induction l generalizing a with
  | nil => simp [numerics]
  | cons v t ih =>
    rw [List.foldl_cons, ih]
    cases v with
    | num q =>
      simp [numerics, List.filterMap_cons, toNumOr0, ratAdd_eq]
      ring
    | str s =>
      simp [numerics, List.filterMap_cons, toNumOr0, ratAdd_eq]


/-- Folding addition computes the list sum. -/

theorem foldl_ratAdd (l : List Rat) (a : Rat) : l.foldl ratAdd a = a + l.sum := by
  induction l generalizing a with
  | nil => simp
  | cons q t ih =>
    rw [List.foldl_cons, ih, ratAdd_eq]
    simp [List.sum_cons]
    ring


/-- The SUM branch computes the total of the numeric expanded values. -/

theorem sumAggregate_spec (sheet : SheetData) (args : List String) :
    sumAggregate sheet args = specSum (expandedValues sheet args) := by
  have key : ∀ (ar : List String) (a : Rat),
      ar.foldl (fun sum arg =>
        ratAdd sum ((getCellsInRange sheet (jsTrim arg)).foldl
          (fun acc v => ratAdd acc (toNumOr0 v)) 0)) a
        = a + (numerics (expandedValues sheet ar)).sum := by
    intro ar
    induction ar with
    | nil =>
      intro a
      simp [expandedValues, numerics]
    | cons x t ih =>
      intro a
      rw [List.foldl_cons, ih, ratAdd_eq, foldl_toNumOr0, expandedValues_cons,
        numerics_append, List.sum_append]
      ring
  rw [sumAggregate, key, specSum, foldl_ratAdd]


/-- The AVERAGE branch computes total over count of the numeric expanded
values, with `0` when there are none. -/

theorem averageAggregate_spec (sheet : SheetData) (args : List String) :
    averageAggregate sheet args = .num (specAverage (expandedValues sheet args)) := by
  have key : ∀ (ar : List String) (p : Rat × Nat),
      ar.foldl (fun (p : Rat × Nat) arg =>
        let nv := numerics (getCellsInRange sheet (jsTrim arg))
        (ratAdd p.1 (nv.foldl ratAdd 0), p.2 + nv.length)) p
        = (p.1 + (numerics (expandedValues sheet ar)).sum,
           p.2 + (numerics (expandedValues sheet ar)).length) := by
    intro ar
    induction ar with
    | nil =>
      intro p
      simp [expandedValues, numerics]
    | cons x t ih =>
      intro p
      rw [List.foldl_cons, ih]
      simp only [ratAdd_eq, foldl_ratAdd, expandedValues_cons, numerics_append,
        List.sum_append, List.length_append, Prod.mk.injEq]
      constructor
      · ring
      · omega
  simp only [averageAggregate]
  rw [key]
  simp only [zero_add, Nat.zero_add]
  rcases Nat.eq_zero_or_pos (numerics (expandedValues sheet args)).length with h | h
  · simp [specAverage, h]
  · have hne : (numerics (expandedValues sheet args)).length ≠ 0 := Nat.pos_iff_ne_zero.mp h
    simp [specAverage, h, hne, foldl_ratAdd]


/-- The COUNT branch counts exactly the numeric expanded values. -/

theorem countAggregate_spec (sheet : SheetData) (args : List String) :
    countAggregate sheet args = specCount (expandedValues sheet args) := by
  have key : ∀ (ar : List String) (c : Nat),
      ar.foldl (fun c arg => c + (numerics (getCellsInRange sheet (jsTrim arg))).length) c
        = c + (numerics (expandedValues sheet ar)).length := by
    intro ar
    induction ar with
    | nil =>
      intro c
      simp [expandedValues, numerics]
    | cons x t ih =>
      intro c
      rw [List.foldl_cons, ih]
      simp only [expandedValues_cons, numerics_append, List.length_append]
      omega
  rw [countAggregate, key, specCount]
  omega


/-- Folding `Math.max` from a finite accumulator stays finite. -/

theorem jsMax2_foldl_fin (qs : List Rat) (m : Rat) :
    qs.foldl jsMax2 (.fin m) = .fin (qs.foldl ratMax m) := by
  induction qs generalizing m with
  | nil => rfl
  | cons q t ih => simp [List.foldl_cons, jsMax2, ih]


/-- Folding `Math.min` from a finite accumulator stays finite. -/

theorem jsMin2_foldl_fin (qs : List Rat) (m : Rat) :
    qs.foldl jsMin2 (.fin m) = .fin (qs.foldl ratMin m) := by
  induction qs generalizing m with
  | nil => rfl
  | cons q t ih => simp [List.foldl_cons, jsMin2, ih]


/-- The MAX branch computes the maximum of the numeric expanded values, and
maps the `-Infinity` accumulator to the sentinel `0` when there are none: no
infinity reaches the caller. -/

theorem maxAggregate_spec (sheet : SheetData) (args : List String) :
    maxAggregate sheet args = .num (specMax (expandedValues sheet args)) := by
  have key : ∀ (ar : List String) (qs : List Rat),
      ar.foldl (fun acc arg =>
        let nv := numerics (getCellsInRange sheet (jsTrim arg))
        if 0 < nv.length then nv.foldl jsMax2 acc else acc)
        (match qs with | [] => JSNum.negInf | h :: t => .fin (t.foldl ratMax h))
        = (match qs ++ numerics (expandedValues sheet ar) with
           | [] => JSNum.negInf | h :: t => .fin (t.foldl ratMax h)) := by
    intro ar
    induction ar with
    | nil =>
      intro qs
      simp [expandedValues, numerics]
    | cons x t ih =>
      intro qs
      rw [List.foldl_cons]
      cases hnv : numerics (getCellsInRange sheet (jsTrim x)) with
      | nil =>
        simp only [hnv, List.length_nil, lt_irrefl, if_false]
        rw [ih qs]
        simp [expandedValues_cons, numerics_append, hnv]
      | cons h tl =>
        simp only [hnv, List.length_cons, Nat.zero_lt_succ, if_true]
        cases qs with
        | nil =>
          have : ((h :: tl).foldl jsMax2 JSNum.negInf) = .fin (tl.foldl ratMax h) := by
            rw [List.foldl_cons]
            exact jsMax2_foldl_fin tl h
          rw [this]
          have := ih (h :: tl)
          simp only [expandedValues_cons, numerics_append, hnv] at *
          rw [this]
          rfl
        | cons qh qt =>
          rw [jsMax2_foldl_fin]
          have := ih (qh :: (qt ++ h :: tl))
          simp only [expandedValues_cons, numerics_append, hnv] at *
          rw [List.foldl_append] at this
          rw [this]
          simp [List.append_assoc]
  have hkey := key args []
  simp only [List.nil_append] at hkey
  rw [maxAggregate]
  rw [hkey]
  rw [specMax]
  cases numerics (expandedValues sheet args) <;> rfl


/-- The MIN branch computes the minimum of the numeric expanded values, and
maps the `Infinity` accumulator to the sentinel `0` when there are none: no
infinity reaches the caller. -/

theorem minAggregate_spec (sheet : SheetData) (args : List String) :
    minAggregate sheet args = .num (specMin (expandedValues sheet args)) := by
  have key : ∀ (ar : List String) (qs : List Rat),
      ar.foldl (fun acc arg =>
        let nv := numerics (getCellsInRange sheet (jsTrim arg))
        if 0 < nv.length then nv.foldl jsMin2 acc else acc)
        (match qs with | [] => JSNum.posInf | h :: t => .fin (t.foldl ratMin h))
        = (match qs ++ numerics (expandedValues sheet ar) with
           | [] => JSNum.posInf | h :: t => .fin (t.foldl ratMin h)) := by
    intro ar
    induction ar with
    | nil =>
      intro qs
      simp [expandedValues, numerics]
    | cons x t ih =>
      intro qs
      rw [List.foldl_cons]
      cases hnv : numerics (getCellsInRange sheet (jsTrim x)) with
      | nil =>
        simp only [hnv, List.length_nil, lt_irrefl, if_false]
        rw [ih qs]
        simp [expandedValues_cons, numerics_append, hnv]
      | cons h tl =>
        simp only [hnv, List.length_cons, Nat.zero_lt_succ, if_true]
        cases qs with
        | nil =>
          have : ((h :: tl).foldl jsMin2 JSNum.posInf) = .fin (tl.foldl ratMin h) := by
            rw [List.foldl_cons]
            exact jsMin2_foldl_fin tl h
          rw [this]
          have := ih (h :: tl)
          simp only [expandedValues_cons, numerics_append, hnv] at *
          rw [this]
          rfl
        | cons qh qt =>
          rw [jsMin2_foldl_fin]
          have := ih (qh :: (qt ++ h :: tl))
          simp only [expandedValues_cons, numerics_append, hnv] at *
          rw [List.foldl_append] at this
          rw [this]
          simp [List.append_assoc]
  have hkey := key args []
  simp only [List.nil_append] at hkey
  rw [minAggregate]
  rw [hkey]
  rw [specMin]
  cases numerics (expandedValues sheet args) <;> rfl


/-- C8: each aggregate reduces its expanded argument values as specified —
SUM to the total of the numeric values, AVERAGE to total/count (`0` when the
count is `0`), COUNT to the count of numeric values only, MAX and MIN over
the numeric values only with the sentinel `0` whenever no numeric value is
present (including an empty range); the specification-side reductions
`specMax`/`specMin` are finite-valued, so `±Infinity` is never returned. -/

theorem C8_aggregate_reduction (sheet : SheetData) (f : String) :
    (strStartsWith (jsTrim (jsToUpper f)) "SUM(" = true →
        evaluateFormula sheet f =
          .num (specSum (expandedValues sheet (aggArgs (jsTrim (jsToUpper f)) 4)))) ∧
    (strStartsWith (jsTrim (jsToUpper f)) "AVERAGE(" = true →
        evaluateFormula sheet f =
          .num (specAverage (expandedValues sheet (aggArgs (jsTrim (jsToUpper f)) 8)))) ∧
    (strStartsWith (jsTrim (jsToUpper f)) "COUNT(" = true →
        evaluateFormula sheet f =
          .num ((specCount (expandedValues sheet (aggArgs (jsTrim (jsToUpper f)) 6)) : Nat))) ∧
    (strStartsWith (jsTrim (jsToUpper f)) "MAX(" = true →
        evaluateFormula sheet f =
          .num (specMax (expandedValues sheet (aggArgs (jsTrim (jsToUpper f)) 4)))) ∧
    (strStartsWith (jsTrim (jsToUpper f)) "MIN(" = true →
        evaluateFormula sheet f =
          .num (specMin (expandedValues sheet (aggArgs (jsTrim (jsToUpper f)) 4)))) := by
  refine ⟨?_, ?_, ?_, ?_, ?_⟩
  · intro h
    obtain ⟨t, ht⟩ := isPrefixOf_append h
    have hparen : '(' ∈ (jsTrim (jsToUpper f)).data := by rw [ht]; simp
    simp only [evaluateFormula, evaluateFormulaCore]
    rw [if_neg (fun hc => hc.1 hparen), if_pos h, sumAggregate_spec]
  · intro h
    obtain ⟨t, ht⟩ := isPrefixOf_append h
    have hparen : '(' ∈ (jsTrim (jsToUpper f)).data := by rw [ht]; simp
    have hS : strStartsWith (jsTrim (jsToUpper f)) "SUM(" = false := by
      unfold strStartsWith
      rw [ht]
      rfl
    simp only [evaluateFormula, evaluateFormulaCore]
    rw [if_neg (fun hc => hc.1 hparen), if_neg (by simp [hS]), if_pos h, averageAggregate_spec]
  · intro h
    obtain ⟨t, ht⟩ := isPrefixOf_append h
    have hparen : '(' ∈ (jsTrim (jsToUpper f)).data := by rw [ht]; simp
    have hS : strStartsWith (jsTrim (jsToUpper f)) "SUM(" = false := by
      unfold strStartsWith
      rw [ht]
      rfl
    have hA : strStartsWith (jsTrim (jsToUpper f)) "AVERAGE(" = false := by
      unfold strStartsWith
      rw [ht]
      rfl
    simp only [evaluateFormula, evaluateFormulaCore]
    rw [if_neg (fun hc => hc.1 hparen), if_neg (by simp [hS]), if_neg (by simp [hA]),
      if_pos h, countAggregate_spec]
  · intro h
    obtain ⟨t, ht⟩ := isPrefixOf_append h
    have hparen : '(' ∈ (jsTrim (jsToUpper f)).data := by rw [ht]; simp
    have hS : strStartsWith (jsTrim (jsToUpper f)) "SUM(" = false := by
      unfold strStartsWith
      rw [ht]
      rfl
    have hA : strStartsWith (jsTrim (jsToUpper f)) "AVERAGE(" = false := by
      unfold strStartsWith
      rw [ht]
      rfl
    have hC : strStartsWith (jsTrim (jsToUpper f)) "COUNT(" = false := by
      unfold strStartsWith
      rw [ht]
      rfl
    simp only [evaluateFormula, evaluateFormulaCore]
    rw [if_neg (fun hc => hc.1 hparen), if_neg (by simp [hS]), if_neg (by simp [hA]),
      if_neg (by simp [hC]), if_pos h, maxAggregate_spec]
  · intro h
    obtain ⟨t, ht⟩ := isPrefixOf_append h
    have hparen : '(' ∈ (jsTrim (jsToUpper f)).data := by rw [ht]; simp
    have hS : strStartsWith (jsTrim (jsToUpper f)) "SUM(" = false := by
      unfold strStartsWith
      rw [ht]
      rfl
    have hA : strStartsWith (jsTrim (jsToUpper f)) "AVERAGE(" = false := by
      unfold strStartsWith
      rw [ht]
      rfl
    have hC : strStartsWith (jsTrim (jsToUpper f)) "COUNT(" = false := by
      unfold strStartsWith
      rw [ht]
      rfl
    have hM : strStartsWith (jsTrim (jsToUpper f)) "MAX(" = false := by
      unfold strStartsWith
      rw [ht]
      rfl
    simp only [evaluateFormula, evaluateFormulaCore]
    rw [if_neg (fun hc => hc.1 hparen), if_neg (by simp [hS]), if_neg (by simp [hA]),
      if_neg (by simp [hC]), if_neg (by simp [hM]), if_pos h, minAggregate_spec]


/-- Witness for C8 over the `Product / 10, 20, 30` sheet, including the
empty-range sentinel for MIN. -/
theorem C8_aggregate_reduction_witness :
    evaluateFormula demoSheet "SUM(A2:A4)" = .num 60 ∧
    evaluateFormula demoSheet "AVERAGE(A2:A4)" = .num 20 ∧
    evaluateFormula demoSheet "COUNT(A2:A4)" = .num 3 ∧
    evaluateFormula demoSheet "MAX(A2:A4)" = .num 30 ∧
    evaluateFormula demoSheet "MIN(X:Y)" = .num 0 := by
  refine ⟨?_, ?_, ?_, ?_, ?_⟩
  · rw [(C8_aggregate_reduction demoSheet "SUM(A2:A4)").1 (by decide)]
    decide
  · rw [(C8_aggregate_reduction demoSheet "AVERAGE(A2:A4)").2.1 (by decide)]
    decide
  · rw [(C8_aggregate_reduction demoSheet "COUNT(A2:A4)").2.2.1 (by decide)]
    decide
  · rw [(C8_aggregate_reduction demoSheet "MAX(A2:A4)").2.2.2.1 (by decide)]
    decide
  · rw [(C8_aggregate_reduction demoSheet "MIN(X:Y)").2.2.2.2 (by decide)]
    decide


end Spreadsheet
